import Mathlib

/-!
Shallow embedding of the core ledger engine of `src/newbnk.py` (a single-file,
file-persisted banking program) and verification of its specification claims.

Modelling conventions:
* Currency amounts are modelled as exact rationals (the source uses Python
  floats; no claim under consideration depends on binary floating-point
  artifacts, and the spec states currency semantics in exact decimal terms).
* Account dictionaries become association lists `List (String × Account)`,
  preserving Python dict insertion order (which the source relies on for
  iteration and serialization order).
* Interactive input collection (the CLI prompt loops) is external to the core:
  the loops re-prompt until the value is valid, so the embedded operations
  receive the already-validated value, and validity appears as a hypothesis on
  the step relation where the source loop guarantees it.
* Timestamps come from the wall clock in the source; operations here take the
  timestamp string as an argument.
* SHA-256 is an external primitive; operations that hash take the hash
  function as an argument.
-/

/-- Decimal digit characters of `n`, most significant first, via fuel
recursion on `n` itself (so the kernel can evaluate it). Mirrors what Python
`str` produces for a positive integer. -/
def natKeyAux : Nat → Nat → List Char
  | 0, _ => []
  | fuel + 1, n => if n = 0 then [] else natKeyAux fuel (n / 10) ++ [Nat.digitChar (n % 10)]

/-- The decimal string Python `str` produces for a natural number. Account
dictionary keys in the source are exactly these strings. -/
def natKey (n : Nat) : String :=
  if n = 0 then "0" else ⟨natKeyAux n n⟩

/-- One transaction record, as built by `record_transaction` in the source:
a dict with `timestamp`, `type`, `amount` plus the optional detail fields the
program actually passes (`to_account` on a sent transfer, `from_account` on a
received one). -/
structure Transaction where
  timestamp : String
  type : String
  amount : ℚ
  to_account : Option String
  from_account : Option String
deriving DecidableEq

/-- One account value of the `accounts` dict: `name`, `balance`,
`password_hash` (optional: files written by other programs may omit it) and
the transaction list. -/
structure Account where
  name : String
  balance : ℚ
  password_hash : Option String
  transactions : List Transaction
deriving DecidableEq

/-- The whole mutable state of the program: the `accounts` dict (as an
insertion-ordered association list) and the `next_account_number` counter. -/
structure Bank where
  accounts : List (String × Account)
  next_account_number : Nat
deriving DecidableEq

/-- The fresh state the program starts from (`accounts = {}`,
`next_account_number = 1001`). -/
def emptyBank : Bank := { accounts := [], next_account_number := 1001 }

/-- `INTEREST_RATE = 0.015` from the source. -/
def INTEREST_RATE : ℚ := 15 / 1000

/-- Round half to even at integer precision (the tie rule of Python `round`). -/
def roundHalfEven (q : ℚ) : ℤ :=
  if q - ⌊q⌋ < 1 / 2 then ⌊q⌋
  else if 1 / 2 < q - ⌊q⌋ then ⌊q⌋ + 1
  else if ⌊q⌋ % 2 = 0 then ⌊q⌋ else ⌊q⌋ + 1

/-- `round(x, 2)` from the source: round to two decimal places. -/
def round2 (q : ℚ) : ℚ := (roundHalfEven (q * 100) : ℚ) / 100

/-- `find_account` / `accounts.get(acc_num)`. -/
def find_account (b : Bank) (k : String) : Option Account :=
  (b.accounts.find? (fun p => p.1 == k)).map Prod.snd

/-- In-place mutation of the account object stored under key `k`
(Python dict values are mutable objects; updating the object found under a
key rewrites that entry). -/
def modifyAccount (b : Bank) (k : String) (f : Account → Account) : Bank :=
  { b with accounts := b.accounts.map (fun p => if p.1 = k then (p.1, f p.2) else p) }

/-- `record_transaction`: appends a transaction dict to the account history
(after the defensive existence check the source performs). -/
def record_transaction (b : Bank) (acc : String) (ttype : String) (amount : ℚ)
    (ts : String) (toA fromA : Option String) : Bank :=
  match find_account b acc with
  | none => b
  | some _ =>
      modifyAccount b acc (fun a =>
        { a with transactions := a.transactions ++ [⟨ts, ttype, amount, toA, fromA⟩] })

/-- The `while str(next_account_number) in accounts: next_account_number += 1`
loop of `generate_account_number`, with explicit fuel. The loop can repeat at
most once per existing key, so fuel `accounts.length + 1` always suffices
(proved below). -/
def genAux (keys : List String) : Nat → Nat → Nat
  | 0, n => n
  | fuel + 1, n => if natKey n ∈ keys then genAux keys fuel (n + 1) else n

/-- `generate_account_number`: returns the issued key together with the
updated `next_account_number` counter. -/
def generate_account_number (b : Bank) : String × Nat :=
  let r := genAux (b.accounts.map Prod.fst) (b.accounts.length + 1) b.next_account_number
  (natKey r, r + 1)

/-- `verify_password`: compares the stored hash with the hash of the supplied
password (`hashFn` stands for the external SHA-256 primitive). -/
def verify_password (hashFn : String → String) (stored provided : String) : Bool :=
  stored == hashFn provided

/-- `authenticate_user`, single-shot (the three-attempt retry loop only
re-collects input; one attempt with the final password is the core
primitive). `none` means account missing or wrong password; accounts without
a `password_hash` field grant access unconditionally. -/
def authenticate_user (hashFn : String → String) (b : Bank) (acc pw : String) :
    Option Account :=
  match find_account b acc with
  | none => none
  | some a =>
      match a.password_hash with
      | none => some a
      | some stored => if verify_password hashFn stored pw then some a else none

/-- `create_new_account`, after the interactive collection of `name`,
`password` (both non-blank enforced by the prompts; the blank-name check is
an explicit branch in the function) and a non-negative `initial_deposit`. -/
def create_new_account (hashFn : String → String) (b : Bank) (name pw : String)
    (initial_deposit : ℚ) (ts : String) : Bank :=
  if name = "" then b
  else
    let g := generate_account_number b
    let b1 : Bank :=
      { accounts := b.accounts ++
          [(g.1, { name := name, balance := initial_deposit,
                   password_hash := some (hashFn pw), transactions := [] })],
        next_account_number := g.2 }
    if 0 < initial_deposit then
      record_transaction b1 g.1 "Initial Deposit" initial_deposit ts none none
    else b1

/-- `make_deposit` after authentication and amount collection (the prompt
loop guarantees `0 < amount`). An unknown account means authentication
failed and nothing happens. -/
def make_deposit (b : Bank) (acc : String) (amount : ℚ) (ts : String) : Bank :=
  match find_account b acc with
  | none => b
  | some _ =>
      record_transaction
        (modifyAccount b acc (fun a => { a with balance := a.balance + amount }))
        acc "Deposit" amount ts none none

/-- Outcome of a withdrawal attempt. -/
inductive WithdrawResult where
  | success
  | insufficientFunds
  | accountNotFound
deriving DecidableEq

/-- `make_withdrawal` after authentication and amount collection. The source
branches on `amount > account["balance"]`, printing the insufficient-funds
error and changing nothing. -/
def make_withdrawal (b : Bank) (acc : String) (amount : ℚ) (ts : String) :
    Bank × WithdrawResult :=
  match find_account b acc with
  | none => (b, .accountNotFound)
  | some a =>
      if a.balance < amount then (b, .insufficientFunds)
      else
        (record_transaction
          (modifyAccount b acc (fun x => { x with balance := x.balance - amount }))
          acc "Withdrawal" amount ts none none, .success)

/-- Outcome of a transfer attempt, one per failure print of the source. -/
inductive TransferResult where
  | success
  | sourceNotFound
  | sameAccount
  | unknownAccount
  | insufficientFunds
deriving DecidableEq

/-- `transfer_funds`: authenticate the source, reject transfers to the same
account, reject an unknown destination, reject `amount > source.balance`;
otherwise mutate both balances and append the two transfer records. -/
def transfer_funds (b : Bank) (src dst : String) (amount : ℚ) (ts : String) :
    Bank × TransferResult :=
  match find_account b src with
  | none => (b, .sourceNotFound)
  | some sa =>
      if src = dst then (b, .sameAccount)
      else
        match find_account b dst with
        | none => (b, .unknownAccount)
        | some _ =>
            if sa.balance < amount then (b, .insufficientFunds)
            else
              let b1 := modifyAccount b src (fun a => { a with balance := a.balance - amount })
              let b2 := modifyAccount b1 dst (fun a => { a with balance := a.balance + amount })
              let b3 := record_transaction b2 src "Transfer Sent" amount ts (some dst) none
              let b4 := record_transaction b3 dst "Transfer Received" amount ts none (some src)
              (b4, .success)

/-- `apply_interest_to_all_accounts`, with the rate as a parameter (the
source reads the constant `INTEREST_RATE`). Each account with a positive
balance whose rounded interest is positive gets the interest added and one
record appended; every other account is untouched. -/
def apply_interest_to_all_accounts (b : Bank) (rate : ℚ) (ts : String) : Bank :=
  { b with accounts := b.accounts.map (fun p =>
      (p.1,
        if 0 < p.2.balance then
          if 0 < round2 (p.2.balance * rate) then
            { p.2 with
              balance := p.2.balance + round2 (p.2.balance * rate),
              transactions := p.2.transactions ++
                [⟨ts, "Interest Applied", round2 (p.2.balance * rate), none, none⟩] }
          else p.2
        else p.2)) }

/-- The signed contribution of one transaction record to the balance, as the
spec classifies the kinds the program writes. -/
def signedAmount (t : Transaction) : ℚ :=
  if t.type = "Deposit" ∨ t.type = "Initial Deposit" ∨
     t.type = "Transfer Received" ∨ t.type = "Interest Applied" then t.amount
  else if t.type = "Withdrawal" ∨ t.type = "Transfer Sent" then -t.amount
  else 0

/-- Net sum of the signed transaction amounts of a history. -/
def netSum (l : List Transaction) : ℚ := (l.map signedAmount).sum

/-- The JSON values `json.dump` / `json.load` exchange with the data file. -/
inductive Json where
  | jnull
  | jbool (b : Bool)
  | jnum (q : ℚ)
  | jstr (s : String)
  | jarr (xs : List Json)
  | jobj (fields : List (String × Json))

/-- Field lookup in a JSON object (Python dict access by key). -/
def jlookup (fields : List (String × Json)) (k : String) : Option Json :=
  (fields.find? (fun p => p.1 == k)).map Prod.snd

/-- Serialization of one transaction dict, in the field order
`record_transaction` builds it (the optional detail field last). -/
def encodeTx (t : Transaction) : Json :=
  .jobj ([("timestamp", .jstr t.timestamp), ("type", .jstr t.type), ("amount", .jnum t.amount)]
    ++ (match t.to_account with | some s => [("to_account", Json.jstr s)] | none => [])
    ++ (match t.from_account with | some s => [("from_account", Json.jstr s)] | none => []))

/-- Serialization of one account dict. An absent `password_hash` stays
absent. -/
def encodeAccount (a : Account) : Json :=
  .jobj ([("name", .jstr a.name), ("balance", .jnum a.balance)]
    ++ (match a.password_hash with | some h => [("password_hash", Json.jstr h)] | none => [])
    ++ [("transactions", .jarr (a.transactions.map encodeTx))])

/-- `save_banking_data`: the JSON document written to the data file
(`{"accounts": ..., "next_account_number": ...}`). The write itself and its
IOError handling are outside the state model; the document is the result. -/
def save_banking_data (b : Bank) : Json :=
  .jobj [("accounts", .jobj (b.accounts.map (fun p => (p.1, encodeAccount p.2)))),
         ("next_account_number", .jnum (b.next_account_number : ℚ))]

/-- Decoding of one transaction dict. The model types the state, so a
transaction dict missing a typed field fails to decode (the source would
keep the junk dict and only crash later when displaying it; no claim
depends on that difference). -/
def decodeTx (j : Json) : Option Transaction :=
  match j with
  | .jobj fs =>
      match jlookup fs "timestamp", jlookup fs "type", jlookup fs "amount" with
      | some (.jstr ts), some (.jstr ty), some (.jnum am) =>
          some ⟨ts, ty, am,
            (match jlookup fs "to_account" with | some (.jstr s) => some s | _ => none),
            (match jlookup fs "from_account" with | some (.jstr s) => some s | _ => none)⟩
      | _, _, _ => none
  | _ => none

/-- Decoding of a transaction array, element by element. -/
def decodeTxs : List Json → Option (List Transaction)
  | [] => some []
  | j :: rest =>
      match decodeTx j, decodeTxs rest with
      | some t, some ts => some (t :: ts)
      | _, _ => none

/-- Decoding of one account dict. The fix-up pass of `load_banking_data`
appears here: a missing or non-list `transactions` field is replaced by the
empty list. As with transactions, a dict whose typed fields are missing or
ill-typed fails to decode (the source defers such failures to later use). -/
def decodeAccount (j : Json) : Option Account :=
  match j with
  | .jobj fs =>
      match jlookup fs "name", jlookup fs "balance" with
      | some (.jstr nm), some (.jnum bal) =>
          match (match jlookup fs "password_hash" with
                 | none => some none
                 | some (.jstr h) => some (some h)
                 | some _ => none) with
          | none => none
          | some ph =>
              match jlookup fs "transactions" with
              | some (.jarr l) =>
                  match decodeTxs l with
                  | some txs => some ⟨nm, bal, ph, txs⟩
                  | none => none
              | some _ => some ⟨nm, bal, ph, []⟩
              | none => some ⟨nm, bal, ph, []⟩
      | _, _ => none
  | _ => none

/-- Decoding of the `accounts` object, entry by entry in file order. -/
def decodeAccounts : List (String × Json) → Option (List (String × Account))
  | [] => some []
  | (k, j) :: rest =>
      match decodeAccount j, decodeAccounts rest with
      | some a, some l => some ((k, a) :: l)
      | _, _ => none

/-- `load_banking_data`. `none` stands for a missing file or content the
JSON parser rejects (both reset to the empty state in the source). A parsed
document lacking the dict shape or either top-level field resets likewise;
account data that raises during the fix-up loop is caught by the blanket
handler and also resets. The counter is typed as a natural number, so a
document whose counter is not one counts as malformed here. -/
def load_banking_data (file : Option Json) : Bank :=
  match file with
  | none => { accounts := [], next_account_number := 1001 }
  | some j =>
      match j with
      | .jobj fs =>
          match jlookup fs "accounts", jlookup fs "next_account_number" with
          | some (.jobj accs), some (.jnum n) =>
              if n.den = 1 ∧ 0 ≤ n.num then
                match decodeAccounts accs with
                | some l => { accounts := l, next_account_number := n.num.toNat }
                | none => { accounts := [], next_account_number := 1001 }
              else { accounts := [], next_account_number := 1001 }
          | _, _ => { accounts := [], next_account_number := 1001 }
      | _ => { accounts := [], next_account_number := 1001 }

/-- One core operation, with the validity facts the interactive prompt
loops guarantee for the value they hand to the core. -/
inductive Step : Bank → Bank → Prop
  | create (b : Bank) (hashFn : String → String) (name pw ts : String) (init : ℚ)
      (hinit : 0 ≤ init) : Step b (create_new_account hashFn b name pw init ts)
  | deposit (b : Bank) (acc ts : String) (amount : ℚ) (hpos : 0 < amount) :
      Step b (make_deposit b acc amount ts)
  | withdraw (b : Bank) (acc ts : String) (amount : ℚ) (hpos : 0 < amount) :
      Step b (make_withdrawal b acc amount ts).1
  | transfer (b : Bank) (src dst ts : String) (amount : ℚ) (hpos : 0 < amount) :
      Step b (transfer_funds b src dst amount ts).1
  | interest (b : Bank) (ts : String) :
      Step b (apply_interest_to_all_accounts b INTEREST_RATE ts)

/-- States reachable from the fresh start by core operations. -/
inductive Reachable : Bank → Prop
  | init : Reachable emptyBank
  | step {b b2 : Bank} : Reachable b → Step b b2 → Reachable b2

/-- The per-account part of the reachability invariant. -/
def AccountOK (a : Account) : Prop :=
  a.balance = netSum a.transactions ∧ 0 ≤ a.balance ∧ a.password_hash.isSome = true

/-- The full reachability invariant: every stored account satisfies
`AccountOK`, every key is the decimal string of a number below the counter,
and keys never repeat. -/
def BankOK (b : Bank) : Prop :=
  (∀ p ∈ b.accounts, AccountOK p.2 ∧ ∃ m, m < b.next_account_number ∧ p.1 = natKey m) ∧
  (b.accounts.map Prod.fst).Nodup

/-- A stand-in for the external SHA-256 primitive in concrete evaluations. -/
def hashEx : String → String := fun s => s

/-- A one-account state whose key collides with the counter (as after
loading a file written with a lower counter). -/
def bankEx : Bank :=
  { accounts := [("1001", { name := "A", balance := 5, password_hash := some "H",
                            transactions := [] })],
    next_account_number := 1001 }

/-- A two-account state used to evaluate the operations. -/
def bank2Ex : Bank :=
  { accounts := [("1001", { name := "A", balance := 100, password_hash := some "H",
                            transactions := [] }),
                 ("1002", { name := "B", balance := 0, password_hash := some "H",
                            transactions := [] })],
    next_account_number := 1003 }

/-- A state built by the program itself: one account created with a 50
initial deposit. -/
def reachEx : Bank := create_new_account hashEx emptyBank "Alice" "pw" 50 "t0"

/-- `reachEx` after depositing 25 more. -/
def reachEx2 : Bank := make_deposit reachEx "1001" 25 "t1"

/-- `Nat.digitChar` separates decimal digits. -/
theorem digitChar_inj_lt : ∀ a < 10, ∀ b < 10, Nat.digitChar a = Nat.digitChar b → a = b := by
  decide

/-- With enough fuel, `natKeyAux` lists the base-10 digits most significant
first. -/
theorem natKeyAux_eq_digits :
    ∀ fuel n, n ≤ fuel → natKeyAux fuel n = ((Nat.digits 10 n).map Nat.digitChar).reverse := by
  intro fuel
  induction fuel with
  | zero =>
      intro n hn
      have : n = 0 := Nat.le_zero.mp hn
      subst this
      simp [natKeyAux]
  | succ fuel ih =>
      intro n hn
      by_cases hz : n = 0
      · subst hz; simp [natKeyAux]
      · have hpos : 0 < n := Nat.pos_of_ne_zero hz
        have hdiv : n / 10 ≤ fuel := by
          have h1 : n / 10 < n := Nat.div_lt_self hpos (by norm_num)
          omega
        rw [show natKeyAux (fuel + 1) n
              = natKeyAux fuel (n / 10) ++ [Nat.digitChar (n % 10)] by
            simp [natKeyAux, hz]]
        rw [ih (n / 10) hdiv]
        rw [Nat.digits_def' (by norm_num : 1 < 10) hpos]
        simp

/-- Lists of decimal digits are separated by `Nat.digitChar`. -/
theorem map_digitChar_inj :
    ∀ (l1 l2 : List ℕ), (∀ x ∈ l1, x < 10) → (∀ x ∈ l2, x < 10) →
      l1.map Nat.digitChar = l2.map Nat.digitChar → l1 = l2 := by
  intro l1
  induction l1 with
  | nil =>
      intro l2 _ _ h
      cases l2 with
      | nil => rfl
      | cons y ys => simp at h
  | cons x xs ih =>
      intro l2 h1 h2 h
      cases l2 with
      | nil => simp at h
      | cons y ys =>
          simp only [List.map_cons, List.cons.injEq] at h
          have hx : x < 10 := h1 x (by simp)
          have hy : y < 10 := h2 y (by simp)
          have hxy : x = y := digitChar_inj_lt x hx y hy h.1
          have : xs = ys :=
            ih ys (fun z hz => h1 z (by simp [hz])) (fun z hz => h2 z (by simp [hz])) h.2
          rw [hxy, this]

/-- The digit list of a positive number maps to a nonempty string different
from "0". -/
theorem natKey_eq_zero_str (n : Nat) (hn : n ≠ 0)
    (h : (Nat.digits 10 n).map Nat.digitChar = ['0']) : False := by
  have hd : Nat.digits 10 n = [0] := by
    apply map_digitChar_inj
    · intro x hx; exact Nat.digits_lt_base (by norm_num) hx
    · intro x hx; simp at hx; omega
    · simpa using h
  have := Nat.ofDigits_digits 10 n
  rw [hd] at this
  simp [Nat.ofDigits] at this
  exact hn this.symm

/-- Distinct numbers get distinct decimal keys (Python `str` on ints is
injective). -/
theorem natKey_injective : Function.Injective natKey := by
  intro m n h
  unfold natKey at h
  by_cases hm : m = 0 <;> by_cases hn : n = 0
  · omega
  · exfalso
    rw [if_pos hm, if_neg hn] at h
    have hdata : ("0" : String).data = natKeyAux n n := congrArg String.data h
    rw [natKeyAux_eq_digits n n le_rfl] at hdata
    have : (Nat.digits 10 n).map Nat.digitChar = ['0'] := by
      have := congrArg List.reverse hdata
      simpa using this.symm
    exact natKey_eq_zero_str n hn this
  · exfalso
    rw [if_neg hm, if_pos hn] at h
    have hdata : natKeyAux m m = ("0" : String).data := congrArg String.data h
    rw [natKeyAux_eq_digits m m le_rfl] at hdata
    have : (Nat.digits 10 m).map Nat.digitChar = ['0'] := by
      have := congrArg List.reverse hdata
      simpa using this
    exact natKey_eq_zero_str m hm this
  · rw [if_neg hm, if_neg hn] at h
    have hdata : natKeyAux m m = natKeyAux n n := congrArg String.data h
    rw [natKeyAux_eq_digits m m le_rfl, natKeyAux_eq_digits n n le_rfl] at hdata
    have hmaps := List.reverse_injective hdata
    have hdig : Nat.digits 10 m = Nat.digits 10 n := by
      apply map_digitChar_inj
      · intro x hx; exact Nat.digits_lt_base (by norm_num) hx
      · intro x hx; exact Nat.digits_lt_base (by norm_num) hx
      · exact hmaps
    exact Nat.digits_inj_iff.mp hdig

/-- The generator never moves the counter backwards. -/
theorem genAux_le (keys : List String) : ∀ fuel n, n ≤ genAux keys fuel n := by
  intro fuel
  induction fuel with
  | zero => intro n; simp [genAux]
  | succ fuel ih =>
      intro n
      simp only [genAux]
      split
      · exact le_trans (Nat.le_succ n) (ih (n + 1))
      · exact le_rfl

/-- If fewer than `fuel` of the candidate keys are taken, the generator
lands on a free key. -/
theorem genAux_fresh (keys : List String) :
    ∀ fuel n,
      ((List.range fuel).filter (fun j => decide (natKey (n + j) ∈ keys))).length < fuel →
      natKey (genAux keys fuel n) ∉ keys := by
  intro fuel
  induction fuel with
  | zero => intro n h; simp at h
  | succ fuel ih =>
      intro n h
      by_cases hmem : natKey n ∈ keys
      · rw [show genAux keys (fuel + 1) n = genAux keys fuel (n + 1) by
          simp [genAux, hmem]]
        apply ih
        rw [List.range_succ_eq_map] at h
        rw [List.filter_cons] at h
        have h0 : decide (natKey (n + 0) ∈ keys) = true := by simpa using hmem
        rw [if_pos h0] at h
        rw [List.filter_map] at h
        simp only [List.length_cons, List.length_map] at h
        have hcongr :
            (List.range fuel).filter ((fun j => decide (natKey (n + j) ∈ keys)) ∘ Nat.succ)
              = (List.range fuel).filter (fun j => decide (natKey (n + 1 + j) ∈ keys)) := by
          apply List.filter_congr
          intro a _
          have : n + Nat.succ a = n + 1 + a := by omega
          simp [Function.comp, this]
        rw [hcongr] at h
        omega
      · rw [show genAux keys (fuel + 1) n = n by simp [genAux, hmem]]
        exact hmem

/-- At most `keys.length` of the candidate keys can be taken: distinct
counters produce distinct keys. -/
theorem genAux_count_le (keys : List String) (n fuel : Nat) :
    ((List.range fuel).filter (fun j => decide (natKey (n + j) ∈ keys))).length
      ≤ keys.length := by
  have hnd : ((List.range fuel).filter (fun j => decide (natKey (n + j) ∈ keys))).Nodup :=
    (List.nodup_range fuel).filter _
  have hinj : Function.Injective (fun j : Nat => natKey (n + j)) := by
    intro a b hab
    have := natKey_injective hab
    omega
  have hnd2 :
      (((List.range fuel).filter (fun j => decide (natKey (n + j) ∈ keys))).map
        (fun j => natKey (n + j))).Nodup := hnd.map hinj
  have hsub :
      (((List.range fuel).filter (fun j => decide (natKey (n + j) ∈ keys))).map
        (fun j => natKey (n + j))) ⊆ keys := by
    intro x hx
    rcases List.mem_map.mp hx with ⟨j, hj, rfl⟩
    have := List.of_mem_filter hj
    simpa using this
  have := (hnd2.subperm hsub).length_le
  simpa using this

/-- The key issued by `generate_account_number` is not already a key of the
accounts dict. -/
theorem generate_key_not_mem (b : Bank) :
    (generate_account_number b).1 ∉ b.accounts.map Prod.fst := by
  apply genAux_fresh
  have hle := genAux_count_le (b.accounts.map Prod.fst) b.next_account_number
    (b.accounts.length + 1)
  have hlen : (b.accounts.map Prod.fst).length = b.accounts.length := List.length_map _ _
  omega

/-- Rewriting each entry with a key-preserving function commutes with
key-directed search. -/
theorem find?_map_keyed (l : List (String × Account)) (k k2 : String)
    (f : Account → Account) :
    (l.map (fun p => if p.1 = k then (p.1, f p.2) else p)).find? (fun p => p.1 == k2)
      = (l.find? (fun p => p.1 == k2)).map (fun p => if p.1 = k then (p.1, f p.2) else p) := by
  induction l with
  | nil => rfl
  | cons p t ih =>
      have hkey : ((if p.1 = k then (p.1, f p.2) else p) : String × Account).1 = p.1 := by
        split <;> rfl
      simp only [List.map_cons, List.find?_cons, hkey]
      cases hb : (p.1 == k2) with
      | true => rfl
      | false => exact ih

/-- Searching the key that was rewritten. -/
theorem find_account_modify_self (b : Bank) (k : String) (f : Account → Account) :
    find_account (modifyAccount b k f) k = (find_account b k).map f := by
  unfold find_account modifyAccount
  rw [find?_map_keyed]
  cases hf : b.accounts.find? (fun p => p.1 == k) with
  | none => rfl
  | some p =>
      have hp : p.1 = k := by simpa using List.find?_some hf
      simp [hp]

/-- Searching a key other than the rewritten one. -/
theorem find_account_modify_other (b : Bank) (k : String) (f : Account → Account)
    (k2 : String) (h : k2 ≠ k) :
    find_account (modifyAccount b k f) k2 = find_account b k2 := by
  unfold find_account modifyAccount
  rw [find?_map_keyed]
  cases hf : b.accounts.find? (fun p => p.1 == k2) with
  | none => rfl
  | some p =>
      have hp : p.1 = k2 := by simpa using List.find?_some hf
      have : ¬ p.1 = k := by rw [hp]; exact h
      simp [this]

/-- Keys are untouched by in-place account mutation. -/
theorem keys_modify (b : Bank) (k : String) (f : Account → Account) :
    (modifyAccount b k f).accounts.map Prod.fst = b.accounts.map Prod.fst := by
  simp only [modifyAccount, List.map_map]
  apply List.map_congr_left
  intro p _
  by_cases h : p.1 = k <;> simp [Function.comp, h]

/-- The counter is untouched by in-place account mutation. -/
theorem next_modify (b : Bank) (k : String) (f : Account → Account) :
    (modifyAccount b k f).next_account_number = b.next_account_number := rfl

/-- The counter is untouched by appending a transaction record. -/
theorem next_record (b : Bank) (acc ttype : String) (amount : ℚ) (ts : String)
    (toA fromA : Option String) :
    (record_transaction b acc ttype amount ts toA fromA).next_account_number
      = b.next_account_number := by
  unfold record_transaction
  cases hf : find_account b acc <;> rfl

/-- Appending a record to an existing account, seen through search. -/
theorem find_account_record_self (b : Bank) (acc ttype : String) (amount : ℚ)
    (ts : String) (toA fromA : Option String) (a : Account)
    (h : find_account b acc = some a) :
    find_account (record_transaction b acc ttype amount ts toA fromA) acc
      = some { a with transactions := a.transactions ++ [⟨ts, ttype, amount, toA, fromA⟩] } := by
  unfold record_transaction
  rw [h]
  rw [find_account_modify_self, h]
  rfl

/-- Appending a record leaves other keys alone. -/
theorem find_account_record_other (b : Bank) (acc ttype : String) (amount : ℚ)
    (ts : String) (toA fromA : Option String) (k2 : String) (h2 : k2 ≠ acc) :
    find_account (record_transaction b acc ttype amount ts toA fromA) k2
      = find_account b k2 := by
  unfold record_transaction
  cases hf : find_account b acc with
  | none => rfl
  | some a => exact find_account_modify_other _ _ _ _ h2

/-- Keys are untouched by appending a record. -/
theorem keys_record (b : Bank) (acc ttype : String) (amount : ℚ) (ts : String)
    (toA fromA : Option String) :
    (record_transaction b acc ttype amount ts toA fromA).accounts.map Prod.fst
      = b.accounts.map Prod.fst := by
  unfold record_transaction
  cases hf : find_account b acc with
  | none => rfl
  | some a => exact keys_modify _ _ _

/-- Claim C9: for every accounts map and counter value, also when the
counter sits at or below existing identifiers, the generated account number
differs from every key already in use: the loop skips forward past every
taken identifier. -/
theorem generate_account_number_fresh (b : Bank) (k : String)
    (h : k ∈ b.accounts.map Prod.fst) : (generate_account_number b).1 ≠ k := by
  intro he
  exact generate_key_not_mem b (he ▸ h)

theorem generate_account_number_fresh_witness :
    (generate_account_number bankEx).1 ≠ "1001" :=
  generate_account_number_fresh bankEx "1001" (by decide)

/-- Claim C1: on every failure path of a transfer (same source and
destination, unknown destination, or amount exceeding the source balance)
the whole state is returned unchanged: no balance moves and no record is
appended anywhere. -/
theorem transfer_atomic_on_failure (b : Bank) (src dst ts : String) (amount : ℚ)
    (h : src = dst ∨ find_account b dst = none ∨
         ∃ sa, find_account b src = some sa ∧ sa.balance < amount) :
    (transfer_funds b src dst amount ts).1 = b := by
  unfold transfer_funds
  cases hs : find_account b src with
  | none => rfl
  | some sa =>
      by_cases hsd : src = dst
      · simp [hsd]
      · simp only [if_neg hsd]
        cases hd : find_account b dst with
        | none => rfl
        | some da =>
            by_cases hb : sa.balance < amount
            · simp [hb]
            · exfalso
              rcases h with h | h | ⟨sa2, hsa2, hlt⟩
              · exact hsd h
              · rw [hd] at h; cases h
              · rw [hs] at hsa2
                injection hsa2 with he
                rw [he] at hb
                exact hb hlt

theorem transfer_atomic_on_failure_witness :
    (transfer_funds bank2Ex "1001" "1002" 500 "t").1 = bank2Ex :=
  transfer_atomic_on_failure bank2Ex "1001" "1002" "t" 500
    (Or.inr (Or.inr ⟨{ name := "A", balance := 100, password_hash := some "H",
                       transactions := [] }, rfl, by norm_num⟩))

/-- A successful transfer reduces to two balance rewrites followed by two
record appends. -/
theorem transfer_funds_eq_success (b : Bank) (src dst ts : String) (amount : ℚ)
    (sa da : Account) (hs : find_account b src = some sa) (hne : src ≠ dst)
    (hd : find_account b dst = some da) (hle : ¬ sa.balance < amount) :
    transfer_funds b src dst amount ts =
      (record_transaction
        (record_transaction
          (modifyAccount
            (modifyAccount b src (fun a => { a with balance := a.balance - amount }))
            dst (fun a => { a with balance := a.balance + amount }))
          src "Transfer Sent" amount ts (some dst) none)
        dst "Transfer Received" amount ts none (some src), .success) := by
  simp only [transfer_funds, hs, if_neg hne, hd, if_neg hle]

/-- Claim C2: a transfer of a positive amount between two distinct existing
accounts with sufficient source funds succeeds, moves exactly the amount
from source to destination, and appends exactly one Transfer Sent record on
the source (destination as counterparty) and one Transfer Received record
on the destination (source as counterparty); every other account and the
counter are untouched. -/
theorem transfer_success_effect (b : Bank) (src dst ts : String) (amount : ℚ)
    (sa da : Account) (hs : find_account b src = some sa)
    (hd : find_account b dst = some da) (hne : src ≠ dst) (_hpos : 0 < amount)
    (hle : amount ≤ sa.balance) :
    (transfer_funds b src dst amount ts).2 = TransferResult.success ∧
    find_account (transfer_funds b src dst amount ts).1 src =
      some { sa with balance := sa.balance - amount,
                     transactions := sa.transactions ++
                       [⟨ts, "Transfer Sent", amount, some dst, none⟩] } ∧
    find_account (transfer_funds b src dst amount ts).1 dst =
      some { da with balance := da.balance + amount,
                     transactions := da.transactions ++
                       [⟨ts, "Transfer Received", amount, none, some src⟩] } ∧
    (∀ k2, k2 ≠ src → k2 ≠ dst →
      find_account (transfer_funds b src dst amount ts).1 k2 = find_account b k2) ∧
    (transfer_funds b src dst amount ts).1.next_account_number = b.next_account_number := by
  have hle2 : ¬ sa.balance < amount := not_lt.mpr hle
  have heq := transfer_funds_eq_success b src dst ts amount sa da hs hne hd hle2
  have h1 : (transfer_funds b src dst amount ts).1 =
      record_transaction
        (record_transaction
          (modifyAccount
            (modifyAccount b src (fun a => { a with balance := a.balance - amount }))
            dst (fun a => { a with balance := a.balance + amount }))
          src "Transfer Sent" amount ts (some dst) none)
        dst "Transfer Received" amount ts none (some src) := by
    rw [heq]
  have hb1src : find_account
      (modifyAccount b src (fun a => { a with balance := a.balance - amount })) src
      = some { sa with balance := sa.balance - amount } := by
    rw [find_account_modify_self, hs]; rfl
  have hb2src : find_account
      (modifyAccount
        (modifyAccount b src (fun a => { a with balance := a.balance - amount }))
        dst (fun a => { a with balance := a.balance + amount })) src
      = some { sa with balance := sa.balance - amount } := by
    rw [find_account_modify_other _ _ _ _ hne, hb1src]
  have hb1dst : find_account
      (modifyAccount b src (fun a => { a with balance := a.balance - amount })) dst
      = some da := by
    rw [find_account_modify_other _ _ _ _ (Ne.symm hne), hd]
  have hb2dst : find_account
      (modifyAccount
        (modifyAccount b src (fun a => { a with balance := a.balance - amount }))
        dst (fun a => { a with balance := a.balance + amount })) dst
      = some { da with balance := da.balance + amount } := by
    rw [find_account_modify_self, hb1dst]; rfl
  refine ⟨by rw [heq], ?_, ?_, ?_, ?_⟩
  · rw [h1, find_account_record_other _ _ _ _ _ _ _ _ hne]
    exact find_account_record_self _ _ _ _ _ _ _ _ hb2src
  · have hb3dst := find_account_record_other
      (modifyAccount
        (modifyAccount b src (fun a => { a with balance := a.balance - amount }))
        dst (fun a => { a with balance := a.balance + amount }))
      src "Transfer Sent" amount ts (some dst) none dst (Ne.symm hne)
    rw [h1]
    exact find_account_record_self _ _ _ _ _ _ _ _ (hb3dst.trans hb2dst)
  · intro k2 hk2s hk2d
    rw [h1, find_account_record_other _ _ _ _ _ _ _ _ hk2d,
        find_account_record_other _ _ _ _ _ _ _ _ hk2s,
        find_account_modify_other _ _ _ _ hk2d,
        find_account_modify_other _ _ _ _ hk2s]
  · rw [h1, next_record, next_record, next_modify, next_modify]

theorem transfer_success_effect_witness :
    (transfer_funds bank2Ex "1001" "1002" 40 "t").2 = TransferResult.success ∧
    find_account (transfer_funds bank2Ex "1001" "1002" 40 "t").1 "1001" =
      some { name := "A", balance := 60, password_hash := some "H",
             transactions := [⟨"t", "Transfer Sent", 40, some "1002", none⟩] } := by
  have h := transfer_success_effect bank2Ex "1001" "1002" "t" 40
    { name := "A", balance := 100, password_hash := some "H", transactions := [] }
    { name := "B", balance := 0, password_hash := some "H", transactions := [] }
    rfl rfl (by decide) (by norm_num) (by norm_num)
  exact ⟨h.1, h.2.1.trans (by norm_num)⟩

/-- Claim C3: withdrawing more than the balance fails with insufficient
funds and changes nothing; withdrawing a positive amount At most the balance
succeeds, lowers the balance by the amount and appends exactly one
Withdrawal record, leaving every other account and the counter alone. -/
theorem withdrawal_spec (b : Bank) (acc ts : String) (amount : ℚ) (a : Account)
    (h : find_account b acc = some a) :
    (a.balance < amount →
      make_withdrawal b acc amount ts = (b, WithdrawResult.insufficientFunds)) ∧
    (0 < amount → amount ≤ a.balance →
      (make_withdrawal b acc amount ts).2 = WithdrawResult.success ∧
      find_account (make_withdrawal b acc amount ts).1 acc =
        some { a with balance := a.balance - amount,
                      transactions := a.transactions ++
                        [⟨ts, "Withdrawal", amount, none, none⟩] } ∧
      (∀ k2, k2 ≠ acc →
        find_account (make_withdrawal b acc amount ts).1 k2 = find_account b k2) ∧
      (make_withdrawal b acc amount ts).1.next_account_number
        = b.next_account_number) := by
  constructor
  · intro hlt
    simp only [make_withdrawal, h, if_pos hlt]
  · intro hpos hle
    have hnlt : ¬ a.balance < amount := not_lt.mpr hle
    have heq : make_withdrawal b acc amount ts =
        (record_transaction
          (modifyAccount b acc (fun x => { x with balance := x.balance - amount }))
          acc "Withdrawal" amount ts none none, .success) := by
      simp only [make_withdrawal, h, if_neg hnlt]
    have h1 : (make_withdrawal b acc amount ts).1 =
        record_transaction
          (modifyAccount b acc (fun x => { x with balance := x.balance - amount }))
          acc "Withdrawal" amount ts none none := by
      rw [heq]
    have hb1 : find_account
        (modifyAccount b acc (fun x => { x with balance := x.balance - amount })) acc
        = some { a with balance := a.balance - amount } := by
      rw [find_account_modify_self, h]; rfl
    refine ⟨by rw [heq], ?_, ?_, by rw [h1, next_record, next_modify]⟩
    · rw [h1]
      exact find_account_record_self _ _ _ _ _ _ _ _ hb1
    · intro k2 hk2
      rw [h1, find_account_record_other _ _ _ _ _ _ _ _ hk2,
          find_account_modify_other _ _ _ _ hk2]

theorem withdrawal_spec_witness :
    make_withdrawal bank2Ex "1002" 5 "t" = (bank2Ex, WithdrawResult.insufficientFunds) ∧
    (make_withdrawal bank2Ex "1001" 30 "t").2 = WithdrawResult.success := by
  constructor
  · exact (withdrawal_spec bank2Ex "1002" "t" 5
      { name := "B", balance := 0, password_hash := some "H", transactions := [] }
      rfl).1 (by norm_num)
  · exact ((withdrawal_spec bank2Ex "1001" "t" 30
      { name := "A", balance := 100, password_hash := some "H", transactions := [] }
      rfl).2 (by norm_num) (by norm_num)).1

/-- Claim C5: applying interest at rate r leaves the counter and the number
and order of accounts unchanged; each account with positive balance whose
rounded interest round2(B * r) is positive gains exactly that interest and
exactly one Interest Applied record carrying it, and each account with
non-positive balance or zero rounded interest is left exactly as it was,
with each account rounded independently of the others. -/
theorem apply_interest_spec (b : Bank) (rate : ℚ) (ts : String) :
    (apply_interest_to_all_accounts b rate ts).next_account_number
      = b.next_account_number ∧
    (apply_interest_to_all_accounts b rate ts).accounts.length = b.accounts.length ∧
    ∀ (i : Nat) (k : String) (a : Account), b.accounts[i]? = some (k, a) →
      ∃ a2, (apply_interest_to_all_accounts b rate ts).accounts[i]? = some (k, a2) ∧
        (0 < a.balance → 0 < round2 (a.balance * rate) →
          a2.balance = a.balance + round2 (a.balance * rate) ∧
          a2.transactions = a.transactions ++
            [⟨ts, "Interest Applied", round2 (a.balance * rate), none, none⟩] ∧
          a2.name = a.name ∧ a2.password_hash = a.password_hash) ∧
        ((a.balance ≤ 0 ∨ round2 (a.balance * rate) ≤ 0) → a2 = a) := by
  refine ⟨rfl, by simp [apply_interest_to_all_accounts], ?_⟩
  intro i k a h
  refine ⟨if 0 < a.balance then
            (if 0 < round2 (a.balance * rate) then
              { a with balance := a.balance + round2 (a.balance * rate),
                       transactions := a.transactions ++
                         [⟨ts, "Interest Applied", round2 (a.balance * rate), none, none⟩] }
             else a)
          else a, ?_, ?_, ?_⟩
  · simp only [apply_interest_to_all_accounts, List.getElem?_map, h, Option.map_some']
  · intro h1 h2
    rw [if_pos h1, if_pos h2]
    exact ⟨rfl, rfl, rfl, rfl⟩
  · intro hor
    by_cases h1 : 0 < a.balance
    · rcases hor with h0 | h0
      · exact absurd h1 (not_lt.mpr h0)
      · rw [if_pos h1, if_neg (not_lt.mpr h0)]
    · rw [if_neg h1]

theorem apply_interest_spec_witness :
    ∃ a2, (apply_interest_to_all_accounts bank2Ex INTEREST_RATE "t").accounts[0]?
        = some ("1001", a2) ∧ a2.balance = 100 + round2 (100 * INTEREST_RATE) := by
  obtain ⟨a2, h1, h2, h3⟩ := (apply_interest_spec bank2Ex INTEREST_RATE "t").2.2 0 "1001"
    { name := "A", balance := 100, password_hash := some "H", transactions := [] } rfl
  refine ⟨a2, h1, ?_⟩
  have hr : round2 (100 * INTEREST_RATE) = 3 / 2 := by
    have : (100 : ℚ) * INTEREST_RATE = 150 / 100 := by norm_num [INTEREST_RATE]
    rw [this]
    norm_num [round2, roundHalfEven]
  exact (h2 (by norm_num) (by rw [hr]; norm_num)).1

/-- Decoding inverts encoding for one transaction. -/
theorem decodeTx_encodeTx (t : Transaction) : decodeTx (encodeTx t) = some t := by
  rcases t with ⟨ts, ty, am, toA, fromA⟩
  cases toA <;> cases fromA <;> rfl

/-- Decoding inverts encoding for a transaction list. -/
theorem decodeTxs_map (l : List Transaction) : decodeTxs (l.map encodeTx) = some l := by
  induction l with
  | nil => rfl
  | cons t rest ih =>
      rw [List.map_cons]
      show (match decodeTx (encodeTx t), decodeTxs (rest.map encodeTx) with
            | some t2, some ts2 => some (t2 :: ts2)
            | _, _ => none) = some (t :: rest)
      rw [decodeTx_encodeTx t, ih]

/-- Decoding inverts encoding for one account. -/
theorem decodeAccount_encodeAccount (a : Account) :
    decodeAccount (encodeAccount a) = some a := by
  rcases a with ⟨nm, bal, ph, txs⟩
  cases ph with
  | none =>
      rw [show decodeAccount (encodeAccount ⟨nm, bal, none, txs⟩)
            = (match decodeTxs (txs.map encodeTx) with
               | some t => some ⟨nm, bal, none, t⟩
               | none => none) from rfl,
          decodeTxs_map]
  | some h =>
      rw [show decodeAccount (encodeAccount ⟨nm, bal, some h, txs⟩)
            = (match decodeTxs (txs.map encodeTx) with
               | some t => some ⟨nm, bal, some h, t⟩
               | none => none) from rfl,
          decodeTxs_map]

/-- Decoding inverts encoding for the accounts object. -/
theorem decodeAccounts_map (l : List (String × Account)) :
    decodeAccounts (l.map (fun p => (p.1, encodeAccount p.2))) = some l := by
  induction l with
  | nil => rfl
  | cons p rest ih =>
      rcases p with ⟨k, a⟩
      rw [List.map_cons]
      show (match decodeAccount (encodeAccount a),
                  decodeAccounts (rest.map (fun p => (p.1, encodeAccount p.2))) with
            | some a2, some l2 => some ((k, a2) :: l2)
            | _, _ => none) = some ((k, a) :: rest)
      rw [decodeAccount_encodeAccount a, ih]

/-- Claim C6: saving any in-memory state and loading the saved document
reproduces the state exactly: balances, identifiers, transaction order and
the counter are all preserved. -/
theorem save_load_roundtrip (b : Bank) :
    load_banking_data (some (save_banking_data b)) = b := by
  rcases b with ⟨accs, nxt⟩
  rw [show load_banking_data (some (save_banking_data ⟨accs, nxt⟩))
        = (if ((nxt : ℚ)).den = 1 ∧ 0 ≤ ((nxt : ℚ)).num then
            match decodeAccounts (accs.map (fun p => (p.1, encodeAccount p.2))) with
            | some l => { accounts := l, next_account_number := ((nxt : ℚ)).num.toNat }
            | none => { accounts := [], next_account_number := 1001 }
          else { accounts := [], next_account_number := 1001 }) from rfl,
      if_pos (by simp), decodeAccounts_map]
  simp

/-- Claim C7: loading a missing or unparsable file, or a parsed document
lacking the dict shape or either required top-level field, yields the empty
state with the counter at 1001 (load is a total function, so it never
raises); and the fix-up pass gives every decoded account whose transactions
field is absent or not a list an empty transaction list. -/
theorem load_malformed_spec :
    load_banking_data none = { accounts := [], next_account_number := 1001 } ∧
    (∀ j : Json,
      (∀ fs, j = Json.jobj fs →
        jlookup fs "accounts" = none ∨ jlookup fs "next_account_number" = none) →
      load_banking_data (some j) = { accounts := [], next_account_number := 1001 }) ∧
    (∀ fs (a : Account), decodeAccount (Json.jobj fs) = some a →
      (∀ l, jlookup fs "transactions" ≠ some (Json.jarr l)) →
      a.transactions = []) := by
  refine ⟨rfl, ?_, ?_⟩
  · intro j hj
    cases j with
    | jnull => rfl
    | jbool x => rfl
    | jnum x => rfl
    | jstr x => rfl
    | jarr x => rfl
    | jobj fs =>
        rcases hj fs rfl with h | h
        · show (match jlookup fs "accounts", jlookup fs "next_account_number" with
                | some (.jobj accs), some (.jnum n) =>
                    if n.den = 1 ∧ 0 ≤ n.num then
                      match decodeAccounts accs with
                      | some l => ({ accounts := l, next_account_number := n.num.toNat } : Bank)
                      | none => { accounts := [], next_account_number := 1001 }
                    else { accounts := [], next_account_number := 1001 }
                | _, _ => { accounts := [], next_account_number := 1001 })
              = { accounts := [], next_account_number := 1001 }
          rw [h]
        · show (match jlookup fs "accounts", jlookup fs "next_account_number" with
                | some (.jobj accs), some (.jnum n) =>
                    if n.den = 1 ∧ 0 ≤ n.num then
                      match decodeAccounts accs with
                      | some l => ({ accounts := l, next_account_number := n.num.toNat } : Bank)
                      | none => { accounts := [], next_account_number := 1001 }
                    else { accounts := [], next_account_number := 1001 }
                | _, _ => { accounts := [], next_account_number := 1001 })
              = { accounts := [], next_account_number := 1001 }
          rw [h]
          cases jlookup fs "accounts" with
          | none => rfl
          | some v => cases v <;> rfl
  · intro fs a hdec htx
    simp only [decodeAccount] at hdec
    cases hnm : jlookup fs "name" with
    | none => rw [hnm] at hdec; cases hdec
    | some vnm =>
        rw [hnm] at hdec
        cases vnm <;> try cases hdec
        case jstr nm =>
        cases hbal : jlookup fs "balance" with
        | none => rw [hbal] at hdec; cases hdec
        | some vbal =>
            rw [hbal] at hdec
            cases vbal <;> try cases hdec
            case jnum bal =>
            cases hph : jlookup fs "password_hash" with
            | none =>
                rw [hph] at hdec
                cases htr : jlookup fs "transactions" with
                | none => rw [htr] at hdec; cases hdec; rfl
                | some vtr =>
                    rw [htr] at hdec
                    cases vtr with
                    | jarr l => exact absurd htr (htx l)
                    | jnull => cases hdec; rfl
                    | jbool x => cases hdec; rfl
                    | jnum x => cases hdec; rfl
                    | jstr x => cases hdec; rfl
                    | jobj x => cases hdec; rfl
            | some vph =>
                rw [hph] at hdec
                cases vph <;> try cases hdec
                case jstr hsh =>
                cases htr : jlookup fs "transactions" with
                | none => rw [htr] at hdec; cases hdec; rfl
                | some vtr =>
                    rw [htr] at hdec
                    cases vtr with
                    | jarr l => exact absurd htr (htx l)
                    | jnull => cases hdec; rfl
                    | jbool x => cases hdec; rfl
                    | jnum x => cases hdec; rfl
                    | jstr x => cases hdec; rfl
                    | jobj x => cases hdec; rfl

theorem load_malformed_spec_witness :
    load_banking_data none = { accounts := [], next_account_number := 1001 } ∧
    load_banking_data (some (Json.jstr "oops"))
      = { accounts := [], next_account_number := 1001 } ∧
    ∀ a : Account,
      decodeAccount (Json.jobj [("name", Json.jstr "A"), ("balance", Json.jnum 3)])
        = some a → a.transactions = [] := by
  refine ⟨load_malformed_spec.1, ?_, ?_⟩
  · exact load_malformed_spec.2.1 (Json.jstr "oops") (by intro fs h; cases h)
  · intro a ha
    exact load_malformed_spec.2.2 [("name", Json.jstr "A"), ("balance", Json.jnum 3)] a ha
      (by intro l h; cases h)

/-- A found account value comes from a stored entry under the searched key. -/
theorem found_mem (b : Bank) (k : String) (a : Account)
    (hf : find_account b k = some a) :
    ∃ q ∈ b.accounts, q.1 = k ∧ q.2 = a := by
  unfold find_account at hf
  cases h2 : b.accounts.find? (fun p => p.1 == k) with
  | none => rw [h2] at hf; cases hf
  | some p =>
      rw [h2] at hf
      refine ⟨p, List.mem_of_find?_eq_some h2, by simpa using List.find?_some h2, ?_⟩
      simpa using hf

/-- With distinct keys, every stored entry under the searched key carries
the found value. -/
theorem mem_key_eq_find (b : Bank) (hnd : (b.accounts.map Prod.fst).Nodup)
    {k : String} {a : Account} (hf : find_account b k = some a)
    {q : String × Account} (hq : q ∈ b.accounts) (hk : q.1 = k) : q.2 = a := by
  obtain ⟨p, hp, hpk, hpa⟩ := found_mem b k a hf
  have : q = p := List.inj_on_of_nodup_map hnd hq hp (by rw [hk, hpk])
  rw [this, hpa]

/-- Net sum over an appended single record. -/
theorem netSum_append (l : List Transaction) (t : Transaction) :
    netSum (l ++ [t]) = netSum l + signedAmount t := by
  simp [netSum]

/-- Searching a key that only the appended entry carries. -/
theorem find?_append_fresh (l : List (String × Account)) (k : String) (a : Account)
    (h : k ∉ l.map Prod.fst) :
    (l ++ [(k, a)]).find? (fun p => p.1 == k) = some (k, a) := by
  induction l with
  | nil => simp
  | cons p t ih =>
      rw [List.map_cons, List.mem_cons] at h
      push_neg at h
      obtain ⟨h1, h2⟩ := h
      rw [List.cons_append,
          List.find?_cons_of_neg _ (by simp only [beq_iff_eq]; exact fun he => h1 he.symm)]
      exact ih h2

/-- Appending a fresh well-formed account preserves the invariant when the
counter moves past it. -/
theorem BankOK_append_fresh (b : Bank) (K : String) (aNew : Account) (N : Nat)
    (hfresh : K ∉ b.accounts.map Prod.fst)
    (hOK : BankOK b) (hA : AccountOK aNew)
    (hm : ∃ m, m < N ∧ K = natKey m) (hle : b.next_account_number ≤ N) :
    BankOK { accounts := b.accounts ++ [(K, aNew)], next_account_number := N } := by
  constructor
  · intro p hp
    rcases List.mem_append.mp hp with hp | hp
    · obtain ⟨hA2, m, hm2, hk2⟩ := hOK.1 p hp
      exact ⟨hA2, m, lt_of_lt_of_le hm2 hle, hk2⟩
    · have : p = (K, aNew) := by simpa using hp
      subst this
      exact ⟨hA, hm⟩
  · rw [List.map_append, List.nodup_append]
    refine ⟨hOK.2, List.nodup_singleton _, ?_⟩
    intro x hx hx2
    have : x = K := by simpa using hx2
    subst this
    exact hfresh hx

/-- Rewriting one existing account with a function preserving its invariant
preserves the bank invariant. -/
theorem BankOK_update (b : Bank) (acc : String) (upd : Account → Account) (a : Account)
    (hfind : find_account b acc = some a) (hOK : BankOK b) (hupd : AccountOK (upd a)) :
    BankOK { accounts := b.accounts.map (fun p => if p.1 = acc then (p.1, upd p.2) else p),
             next_account_number := b.next_account_number } := by
  constructor
  · intro p hp
    rcases List.mem_map.mp hp with ⟨q, hq, rfl⟩
    by_cases hk : q.1 = acc
    · have hqa : q.2 = a := mem_key_eq_find b hOK.2 hfind hq hk
      rw [if_pos hk]
      exact ⟨by rw [hqa]; exact hupd, (hOK.1 q hq).2⟩
    · rw [if_neg hk]
      exact hOK.1 q hq
  · have h2 := keys_modify b acc upd
    exact h2 ▸ hOK.2

/-- Rewriting two distinct existing accounts, each with an
invariant-preserving function, preserves the bank invariant. -/
theorem BankOK_update2 (b : Bank) (acc1 acc2 : String) (upd1 upd2 : Account → Account)
    (a1 a2 : Account) (hne : acc1 ≠ acc2)
    (hf1 : find_account b acc1 = some a1) (hf2 : find_account b acc2 = some a2)
    (hOK : BankOK b) (h1 : AccountOK (upd1 a1)) (h2 : AccountOK (upd2 a2)) :
    BankOK { accounts := b.accounts.map (fun p =>
              if p.1 = acc1 then (p.1, upd1 p.2)
              else if p.1 = acc2 then (p.1, upd2 p.2) else p),
             next_account_number := b.next_account_number } := by
  constructor
  · intro p hp
    rcases List.mem_map.mp hp with ⟨q, hq, rfl⟩
    by_cases hk1 : q.1 = acc1
    · have hqa := mem_key_eq_find b hOK.2 hf1 hq hk1
      rw [if_pos hk1]
      exact ⟨by rw [hqa]; exact h1, (hOK.1 q hq).2⟩
    · by_cases hk2 : q.1 = acc2
      · have hqa := mem_key_eq_find b hOK.2 hf2 hq hk2
        rw [if_neg hk1, if_pos hk2]
        exact ⟨by rw [hqa]; exact h2, (hOK.1 q hq).2⟩
      · rw [if_neg hk1, if_neg hk2]
        exact hOK.1 q hq
  · have hkeys : (b.accounts.map (fun p =>
        if p.1 = acc1 then (p.1, upd1 p.2)
        else if p.1 = acc2 then (p.1, upd2 p.2) else p)).map Prod.fst
          = b.accounts.map Prod.fst := by
      rw [List.map_map]
      apply List.map_congr_left
      intro p _
      by_cases e1 : p.1 = acc1 <;> by_cases e2 : p.1 = acc2 <;>
        simp [Function.comp, e1, e2, Ne.symm hne]
    rw [hkeys]
    exact hOK.2

/-- A deposit preserves the bank invariant. -/
theorem BankOK_deposit (b : Bank) (acc ts : String) (amount : ℚ)
    (hOK : BankOK b) (hpos : 0 < amount) : BankOK (make_deposit b acc amount ts) := by
  cases hf : find_account b acc with
  | none =>
      rw [show make_deposit b acc amount ts = b by simp [make_deposit, hf]]
      exact hOK
  | some a =>
      have hmid : find_account
          (modifyAccount b acc (fun x => { x with balance := x.balance + amount })) acc
          = some { a with balance := a.balance + amount } := by
        rw [find_account_modify_self, hf]; rfl
      have heq : make_deposit b acc amount ts =
          modifyAccount
            (modifyAccount b acc (fun x => { x with balance := x.balance + amount }))
            acc (fun x => { x with transactions := x.transactions ++
              [⟨ts, "Deposit", amount, none, none⟩] }) := by
        simp only [make_deposit, hf, record_transaction, hmid]
      have hbank : modifyAccount
            (modifyAccount b acc (fun x => { x with balance := x.balance + amount }))
            acc (fun x => { x with transactions := x.transactions ++
              [⟨ts, "Deposit", amount, none, none⟩] })
          = { accounts := b.accounts.map (fun p => if p.1 = acc then
                (p.1,
                  { p.2 with
                      balance := p.2.balance + amount,
                      transactions := p.2.transactions ++
                        [⟨ts, "Deposit", amount, none, none⟩] }) else p),
              next_account_number := b.next_account_number } := by
        simp only [modifyAccount]
        congr 1
        rw [List.map_map]
        apply List.map_congr_left
        intro p _
        by_cases h : p.1 = acc <;> simp [Function.comp, h]
      rw [heq, hbank]
      obtain ⟨q, hq, hk, hqa⟩ := found_mem b acc a hf
      have haOK : AccountOK a := by
        have := (hOK.1 q hq).1
        rwa [hqa] at this
      apply BankOK_update b acc
        (fun x => { x with balance := x.balance + amount,
                           transactions := x.transactions ++
                             [⟨ts, "Deposit", amount, none, none⟩] }) a hf hOK
      refine ⟨?_, ?_, haOK.2.2⟩
      · show a.balance + amount
            = netSum (a.transactions ++ [⟨ts, "Deposit", amount, none, none⟩])
        rw [netSum_append,
            show signedAmount ⟨ts, "Deposit", amount, none, none⟩ = amount from rfl,
            haOK.1]
      · show (0 : ℚ) ≤ a.balance + amount
        have := haOK.2.1
        linarith

/-- A withdrawal preserves the bank invariant. -/
theorem BankOK_withdraw (b : Bank) (acc ts : String) (amount : ℚ)
    (hOK : BankOK b) : BankOK (make_withdrawal b acc amount ts).1 := by
  cases hf : find_account b acc with
  | none =>
      rw [show (make_withdrawal b acc amount ts).1 = b by simp [make_withdrawal, hf]]
      exact hOK
  | some a =>
      by_cases hlt : a.balance < amount
      · rw [show (make_withdrawal b acc amount ts).1 = b by
          simp [make_withdrawal, hf, hlt]]
        exact hOK
      · have hmid : find_account
            (modifyAccount b acc (fun x => { x with balance := x.balance - amount })) acc
            = some { a with balance := a.balance - amount } := by
          rw [find_account_modify_self, hf]; rfl
        have heq : (make_withdrawal b acc amount ts).1 =
            modifyAccount
              (modifyAccount b acc (fun x => { x with balance := x.balance - amount }))
              acc (fun x => { x with transactions := x.transactions ++
                [⟨ts, "Withdrawal", amount, none, none⟩] }) := by
          simp only [make_withdrawal, hf, if_neg hlt, record_transaction, hmid]
        have hbank : modifyAccount
              (modifyAccount b acc (fun x => { x with balance := x.balance - amount }))
              acc (fun x => { x with transactions := x.transactions ++
                [⟨ts, "Withdrawal", amount, none, none⟩] })
            = { accounts := b.accounts.map (fun p => if p.1 = acc then
                  (p.1,
                    { p.2 with
                        balance := p.2.balance - amount,
                        transactions := p.2.transactions ++
                          [⟨ts, "Withdrawal", amount, none, none⟩] }) else p),
                next_account_number := b.next_account_number } := by
          simp only [modifyAccount]
          congr 1
          rw [List.map_map]
          apply List.map_congr_left
          intro p _
          by_cases h : p.1 = acc <;> simp [Function.comp, h]
        rw [heq, hbank]
        obtain ⟨q, hq, hk, hqa⟩ := found_mem b acc a hf
        have haOK : AccountOK a := by
          have := (hOK.1 q hq).1
          rwa [hqa] at this
        apply BankOK_update b acc
          (fun x => { x with balance := x.balance - amount,
                             transactions := x.transactions ++
                               [⟨ts, "Withdrawal", amount, none, none⟩] }) a hf hOK
        refine ⟨?_, ?_, haOK.2.2⟩
        · show a.balance - amount
              = netSum (a.transactions ++ [⟨ts, "Withdrawal", amount, none, none⟩])
          rw [netSum_append,
              show signedAmount ⟨ts, "Withdrawal", amount, none, none⟩ = -amount from rfl,
              haOK.1, sub_eq_add_neg]
        · show (0 : ℚ) ≤ a.balance - amount
          have := not_lt.mp hlt
          linarith

/-- A transfer preserves the bank invariant. -/
theorem BankOK_transfer (b : Bank) (src dst ts : String) (amount : ℚ)
    (hOK : BankOK b) (hpos : 0 < amount) :
    BankOK (transfer_funds b src dst amount ts).1 := by
  cases hs : find_account b src with
  | none =>
      rw [show (transfer_funds b src dst amount ts).1 = b by simp [transfer_funds, hs]]
      exact hOK
  | some sa =>
      by_cases hsd : src = dst
      · rw [show (transfer_funds b src dst amount ts).1 = b by
          simp only [transfer_funds, hs]; rw [if_pos hsd]]
        exact hOK
      · cases hd : find_account b dst with
        | none =>
            rw [show (transfer_funds b src dst amount ts).1 = b by
              simp [transfer_funds, hs, hsd, hd]]
            exact hOK
        | some da =>
            by_cases hlt : sa.balance < amount
            · rw [show (transfer_funds b src dst amount ts).1 = b by
                simp [transfer_funds, hs, hsd, hd, hlt]]
              exact hOK
            · have heq := transfer_funds_eq_success b src dst ts amount sa da hs hsd hd hlt
              have hb1src : find_account
                  (modifyAccount b src (fun x => { x with balance := x.balance - amount })) src
                  = some { sa with balance := sa.balance - amount } := by
                rw [find_account_modify_self, hs]; rfl
              have hb2src : find_account
                  (modifyAccount
                    (modifyAccount b src (fun x => { x with balance := x.balance - amount }))
                    dst (fun x => { x with balance := x.balance + amount })) src
                  = some { sa with balance := sa.balance - amount } := by
                rw [find_account_modify_other _ _ _ _ hsd, hb1src]
              have hb1dst : find_account
                  (modifyAccount b src (fun x => { x with balance := x.balance - amount })) dst
                  = some da := by
                rw [find_account_modify_other _ _ _ _ (Ne.symm hsd), hd]
              have hb2dst : find_account
                  (modifyAccount
                    (modifyAccount b src (fun x => { x with balance := x.balance - amount }))
                    dst (fun x => { x with balance := x.balance + amount })) dst
                  = some { da with balance := da.balance + amount } := by
                rw [find_account_modify_self, hb1dst]; rfl
              have hr1 : record_transaction
                  (modifyAccount
                    (modifyAccount b src (fun x => { x with balance := x.balance - amount }))
                    dst (fun x => { x with balance := x.balance + amount }))
                  src "Transfer Sent" amount ts (some dst) none
                  = modifyAccount
                      (modifyAccount
                        (modifyAccount b src (fun x => { x with balance := x.balance - amount }))
                        dst (fun x => { x with balance := x.balance + amount }))
                      src (fun x => { x with transactions := x.transactions ++
                        [⟨ts, "Transfer Sent", amount, some dst, none⟩] }) := by
                simp only [record_transaction, hb2src]
              have hb3dst : find_account
                  (modifyAccount
                    (modifyAccount
                      (modifyAccount b src (fun x => { x with balance := x.balance - amount }))
                      dst (fun x => { x with balance := x.balance + amount }))
                    src (fun x => { x with transactions := x.transactions ++
                      [⟨ts, "Transfer Sent", amount, some dst, none⟩] })) dst
                  = some { da with balance := da.balance + amount } := by
                rw [find_account_modify_other _ _ _ _ (Ne.symm hsd), hb2dst]
              have hr2 : record_transaction
                  (modifyAccount
                    (modifyAccount
                      (modifyAccount b src (fun x => { x with balance := x.balance - amount }))
                      dst (fun x => { x with balance := x.balance + amount }))
                    src (fun x => { x with transactions := x.transactions ++
                      [⟨ts, "Transfer Sent", amount, some dst, none⟩] }))
                  dst "Transfer Received" amount ts none (some src)
                  = modifyAccount
                      (modifyAccount
                        (modifyAccount
                          (modifyAccount b src
                            (fun x => { x with balance := x.balance - amount }))
                          dst (fun x => { x with balance := x.balance + amount }))
                        src (fun x => { x with transactions := x.transactions ++
                          [⟨ts, "Transfer Sent", amount, some dst, none⟩] }))
                      dst (fun x => { x with transactions := x.transactions ++
                        [⟨ts, "Transfer Received", amount, none, some src⟩] }) := by
                simp only [record_transaction, hb3dst]
              have h1 : (transfer_funds b src dst amount ts).1 =
                  modifyAccount
                    (modifyAccount
                      (modifyAccount
                        (modifyAccount b src
                          (fun x => { x with balance := x.balance - amount }))
                        dst (fun x => { x with balance := x.balance + amount }))
                      src (fun x => { x with transactions := x.transactions ++
                        [⟨ts, "Transfer Sent", amount, some dst, none⟩] }))
                    dst (fun x => { x with transactions := x.transactions ++
                      [⟨ts, "Transfer Received", amount, none, some src⟩] }) := by
                rw [heq, hr1, hr2]
              have hbank : modifyAccount
                    (modifyAccount
                      (modifyAccount
                        (modifyAccount b src
                          (fun x => { x with balance := x.balance - amount }))
                        dst (fun x => { x with balance := x.balance + amount }))
                      src (fun x => { x with transactions := x.transactions ++
                        [⟨ts, "Transfer Sent", amount, some dst, none⟩] }))
                    dst (fun x => { x with transactions := x.transactions ++
                      [⟨ts, "Transfer Received", amount, none, some src⟩] })
                  = { accounts := b.accounts.map (fun p =>
                        if p.1 = src then
                          (p.1, (fun x =>
                            { x with
                                balance := x.balance - amount,
                                transactions := x.transactions ++
                                  [⟨ts, "Transfer Sent", amount, some dst, none⟩] }) p.2)
                        else if p.1 = dst then
                          (p.1, (fun x =>
                            { x with
                                balance := x.balance + amount,
                                transactions := x.transactions ++
                                  [⟨ts, "Transfer Received", amount, none, some src⟩] }) p.2)
                        else p),
                      next_account_number := b.next_account_number } := by
                simp only [modifyAccount]
                congr 1
                rw [List.map_map, List.map_map, List.map_map]
                apply List.map_congr_left
                intro p _
                by_cases e1 : p.1 = src
                · have e2 : ¬ p.1 = dst := by rw [e1]; exact hsd
                  simp [Function.comp, e1, e2, hsd]
                · by_cases e2 : p.1 = dst
                  · simp [Function.comp, e1, e2, hsd, Ne.symm hsd]
                  · simp [Function.comp, e1, e2, hsd]
              rw [h1, hbank]
              obtain ⟨qs, hqs, hks, hqsa⟩ := found_mem b src sa hs
              have hsaOK : AccountOK sa := by
                have := (hOK.1 qs hqs).1
                rwa [hqsa] at this
              obtain ⟨qd, hqd, hkd, hqda⟩ := found_mem b dst da hd
              have hdaOK : AccountOK da := by
                have := (hOK.1 qd hqd).1
                rwa [hqda] at this
              apply BankOK_update2 b src dst
                (fun x => { x with
                    balance := x.balance - amount,
                    transactions := x.transactions ++
                      [⟨ts, "Transfer Sent", amount, some dst, none⟩] })
                (fun x => { x with
                    balance := x.balance + amount,
                    transactions := x.transactions ++
                      [⟨ts, "Transfer Received", amount, none, some src⟩] })
                sa da hsd hs hd hOK
              · refine ⟨?_, ?_, hsaOK.2.2⟩
                · show sa.balance - amount = netSum (sa.transactions ++
                    [⟨ts, "Transfer Sent", amount, some dst, none⟩])
                  rw [netSum_append,
                      show signedAmount ⟨ts, "Transfer Sent", amount, some dst, none⟩
                        = -amount from rfl,
                      hsaOK.1, sub_eq_add_neg]
                · show (0 : ℚ) ≤ sa.balance - amount
                  have := not_lt.mp hlt
                  linarith
              · refine ⟨?_, ?_, hdaOK.2.2⟩
                · show da.balance + amount = netSum (da.transactions ++
                    [⟨ts, "Transfer Received", amount, none, some src⟩])
                  rw [netSum_append,
                      show signedAmount ⟨ts, "Transfer Received", amount, none, some src⟩
                        = amount from rfl,
                      hdaOK.1]
                · show (0 : ℚ) ≤ da.balance + amount
                  have := hdaOK.2.1
                  linarith

/-- Searching the freshly appended key finds the appended account. -/
theorem find_account_append_fresh (b : Bank) (K : String) (aNew : Account) (N : Nat)
    (h : K ∉ b.accounts.map Prod.fst) :
    find_account { accounts := b.accounts ++ [(K, aNew)], next_account_number := N } K
      = some aNew := by
  unfold find_account
  show ((b.accounts ++ [(K, aNew)]).find? (fun p => p.1 == K)).map Prod.snd = some aNew
  rw [find?_append_fresh _ _ _ h]
  rfl

/-- Creating an account preserves the bank invariant. -/
theorem BankOK_create (hashFn : String → String) (b : Bank) (name pw : String)
    (init : ℚ) (ts : String) (hOK : BankOK b) (hinit : 0 ≤ init) :
    BankOK (create_new_account hashFn b name pw init ts) := by
  by_cases hname : name = ""
  · rw [show create_new_account hashFn b name pw init ts = b by
      simp [create_new_account, hname]]
    exact hOK
  · have hfresh : (generate_account_number b).1 ∉ b.accounts.map Prod.fst :=
      generate_key_not_mem b
    have hle : b.next_account_number ≤ (generate_account_number b).2 := by
      have := genAux_le (b.accounts.map Prod.fst) (b.accounts.length + 1)
        b.next_account_number
      show b.next_account_number
        ≤ genAux (b.accounts.map Prod.fst) (b.accounts.length + 1) b.next_account_number + 1
      omega
    have hm : ∃ m, m < (generate_account_number b).2 ∧
        (generate_account_number b).1 = natKey m :=
      ⟨genAux (b.accounts.map Prod.fst) (b.accounts.length + 1) b.next_account_number,
       by show genAux (b.accounts.map Prod.fst) (b.accounts.length + 1)
            b.next_account_number
          < genAux (b.accounts.map Prod.fst) (b.accounts.length + 1)
            b.next_account_number + 1
          omega,
       rfl⟩
    by_cases hpos : 0 < init
    · have hfind1 : find_account
          { accounts := b.accounts ++ [((generate_account_number b).1,
              { name := name, balance := init, password_hash := some (hashFn pw),
                transactions := [] })],
            next_account_number := (generate_account_number b).2 }
          (generate_account_number b).1
          = some { name := name, balance := init, password_hash := some (hashFn pw),
                   transactions := [] } :=
        find_account_append_fresh b _ _ _ hfresh
      have heq : create_new_account hashFn b name pw init ts =
          modifyAccount
            { accounts := b.accounts ++ [((generate_account_number b).1,
                { name := name, balance := init, password_hash := some (hashFn pw),
                  transactions := [] })],
              next_account_number := (generate_account_number b).2 }
            (generate_account_number b).1
            (fun x => { x with transactions := x.transactions ++
              [⟨ts, "Initial Deposit", init, none, none⟩] }) := by
        simp only [create_new_account, if_neg hname, if_pos hpos, record_transaction, hfind1]
      have hid : ∀ p ∈ b.accounts,
          (fun p => if p.1 = (generate_account_number b).1 then
            (p.1, (fun x => { x with transactions := x.transactions ++
              [⟨ts, "Initial Deposit", init, none, none⟩] }) p.2) else p) p = p := by
        intro p hp
        have hne : p.1 ≠ (generate_account_number b).1 := by
          intro he
          exact hfresh (he ▸ List.mem_map_of_mem Prod.fst hp)
        simp [hne]
      have hbank : modifyAccount
            { accounts := b.accounts ++ [((generate_account_number b).1,
                { name := name, balance := init, password_hash := some (hashFn pw),
                  transactions := [] })],
              next_account_number := (generate_account_number b).2 }
            (generate_account_number b).1
            (fun x => { x with transactions := x.transactions ++
              [⟨ts, "Initial Deposit", init, none, none⟩] })
          = { accounts := b.accounts ++ [((generate_account_number b).1,
                { name := name, balance := init, password_hash := some (hashFn pw),
                  transactions := [⟨ts, "Initial Deposit", init, none, none⟩] })],
              next_account_number := (generate_account_number b).2 } := by
        simp only [modifyAccount]
        congr 1
        rw [List.map_append]
        congr 1
        · exact (List.map_congr_left hid).trans (List.map_id _)
        · simp
      rw [heq, hbank]
      exact BankOK_append_fresh b _ _ _ hfresh hOK
        ⟨by show init = netSum [⟨ts, "Initial Deposit", init, none, none⟩]
            simp [netSum, signedAmount],
         hinit, rfl⟩ hm hle
    · have heq : create_new_account hashFn b name pw init ts =
          { accounts := b.accounts ++ [((generate_account_number b).1,
              { name := name, balance := init, password_hash := some (hashFn pw),
                transactions := [] })],
            next_account_number := (generate_account_number b).2 } := by
        simp only [create_new_account, if_neg hname, if_neg hpos]
      rw [heq]
      have hinit0 : init = 0 := le_antisymm (not_lt.mp hpos) hinit
      exact BankOK_append_fresh b _ _ _ hfresh hOK
        ⟨by show init = netSum []; rw [hinit0]; rfl, hinit, rfl⟩ hm hle

/-- Applying interest preserves the bank invariant, whatever the rate. -/
theorem BankOK_interest (b : Bank) (rate : ℚ) (ts : String) (hOK : BankOK b) :
    BankOK (apply_interest_to_all_accounts b rate ts) := by
  constructor
  · intro p hp
    rcases List.mem_map.mp hp with ⟨q, hq, rfl⟩
    obtain ⟨hA, hkey⟩ := hOK.1 q hq
    refine ⟨?_, hkey⟩
    show AccountOK (if 0 < q.2.balance then
      (if 0 < round2 (q.2.balance * rate) then
        { q.2 with
            balance := q.2.balance + round2 (q.2.balance * rate),
            transactions := q.2.transactions ++
              [⟨ts, "Interest Applied", round2 (q.2.balance * rate), none, none⟩] }
       else q.2)
      else q.2)
    by_cases h1 : 0 < q.2.balance
    · by_cases h2 : 0 < round2 (q.2.balance * rate)
      · rw [if_pos h1, if_pos h2]
        refine ⟨?_, ?_, hA.2.2⟩
        · show q.2.balance + round2 (q.2.balance * rate)
            = netSum (q.2.transactions ++
              [⟨ts, "Interest Applied", round2 (q.2.balance * rate), none, none⟩])
          rw [netSum_append,
              show signedAmount ⟨ts, "Interest Applied",
                round2 (q.2.balance * rate), none, none⟩
                = round2 (q.2.balance * rate) from rfl,
              hA.1]
        · show (0 : ℚ) ≤ q.2.balance + round2 (q.2.balance * rate)
          have ha := hA.2.1
          have hb := le_of_lt h2
          linarith
      · rw [if_pos h1, if_neg h2]
        exact hA
    · rw [if_neg h1]
      exact hA
  · have hkeys : ((apply_interest_to_all_accounts b rate ts).accounts).map Prod.fst
        = b.accounts.map Prod.fst := by
      simp only [apply_interest_to_all_accounts, List.map_map]
      apply List.map_congr_left
      intro p _
      rfl
    rw [hkeys]
    exact hOK.2

/-- Every state reachable by core operations satisfies the full invariant. -/
theorem reachable_BankOK : ∀ {b : Bank}, Reachable b → BankOK b := by
  intro b h
  induction h with
  | init =>
      constructor
      · intro p hp
        simp [emptyBank] at hp
      · simp [emptyBank]
  | @step b b2 hr hs ih =>
      cases hs with
      | create hashFn name pw ts init hinit =>
          exact BankOK_create hashFn b name pw init ts ih hinit
      | deposit acc ts amount hpos => exact BankOK_deposit b acc ts amount ih hpos
      | withdraw acc ts amount hpos => exact BankOK_withdraw b acc ts amount ih
      | transfer src dst ts amount hpos =>
          exact BankOK_transfer b src dst ts amount ih hpos
      | interest ts => exact BankOK_interest b INTEREST_RATE ts ih

/-- Claim C4: in every state reachable from the fresh start by core
operations, every stored account has its balance equal to the net sum of
its signed transaction amounts (so in particular within one cent of it),
and the balance is never negative. -/
theorem balance_matches_history (b : Bank) (hb : Reachable b) (k : String) (a : Account)
    (hf : find_account b k = some a) :
    a.balance = netSum a.transactions ∧
    |a.balance - netSum a.transactions| ≤ 1 / 100 ∧ 0 ≤ a.balance := by
  obtain ⟨q, hq, hk, hqa⟩ := found_mem b k a hf
  have hA : AccountOK a := by
    have := ((reachable_BankOK hb).1 q hq).1
    rwa [hqa] at this
  refine ⟨hA.1, ?_, hA.2.1⟩
  rw [hA.1]
  simp

theorem balance_matches_history_witness :
    ∃ a : Account, find_account reachEx2 "1001" = some a ∧
      a.balance = netSum a.transactions ∧ 0 ≤ a.balance := by
  have h1 : Reachable reachEx :=
    Reachable.step Reachable.init
      (Step.create emptyBank hashEx "Alice" "pw" "t0" 50 (by norm_num))
  have h2 : Reachable reachEx2 :=
    Reachable.step h1 (Step.deposit reachEx "1001" "t1" 25 (by norm_num))
  have hf : find_account reachEx2 "1001" = some
      { name := "Alice", balance := 50 + 25, password_hash := some "pw",
        transactions := [⟨"t0", "Initial Deposit", 50, none, none⟩,
                         ⟨"t1", "Deposit", 25, none, none⟩] } := rfl
  have h := balance_matches_history reachEx2 h2 "1001" _ hf
  exact ⟨_, hf, h.1, h.2.2⟩

/-- Claim C8: in every state reachable from the fresh start by core
operations, every issued identifier is the decimal key of a number strictly
below the counter, and no two stored entries carry the same identifier.
Since accounts are never removed, the stored keys are exactly the
identifiers ever issued, so no identifier is issued twice. -/
theorem account_numbers_monotone_unique (b : Bank) (hb : Reachable b) :
    (∀ p ∈ b.accounts, ∃ m, m < b.next_account_number ∧ p.1 = natKey m) ∧
    (b.accounts.map Prod.fst).Nodup :=
  ⟨fun p hp => ((reachable_BankOK hb).1 p hp).2, (reachable_BankOK hb).2⟩

theorem account_numbers_monotone_unique_witness :
    (∀ p ∈ reachEx.accounts, ∃ m, m < reachEx.next_account_number ∧ p.1 = natKey m) ∧
    (reachEx.accounts.map Prod.fst).Nodup := by
  have h1 : Reachable reachEx :=
    Reachable.step Reachable.init
      (Step.create emptyBank hashEx "Alice" "pw" "t0" 50 (by norm_num))
  exact account_numbers_monotone_unique reachEx h1

/-- Claim C10: every account the program itself creates stores a password
hash, so in reachable states the unconditional-access branch of
`authenticate_user` (for accounts without a `password_hash` field) is never
taken: whenever authentication grants access in a reachable state, the
stored hash equals the hash of the supplied password. An account without
the field can only come from an externally produced data file. -/
theorem created_accounts_have_password_hash (b : Bank) (hb : Reachable b) :
    (∀ p ∈ b.accounts, p.2.password_hash.isSome = true) ∧
    (∀ (hashFn : String → String) (k pw : String) (a : Account),
      authenticate_user hashFn b k pw = some a → a.password_hash = some (hashFn pw)) := by
  have hOK := reachable_BankOK hb
  refine ⟨fun p hp => ((hOK.1 p hp).1).2.2, ?_⟩
  intro hashFn k pw a hauth
  unfold authenticate_user at hauth
  cases hfn : find_account b k with
  | none => rw [hfn] at hauth; cases hauth
  | some a0 =>
      simp only [hfn] at hauth
      obtain ⟨q, hq, hk, hqa⟩ := found_mem b k a0 hfn
      have hsome : a0.password_hash.isSome = true := by
        rw [← hqa]
        exact ((hOK.1 q hq).1).2.2
      cases hph : a0.password_hash with
      | none => rw [hph] at hsome; cases hsome
      | some stored =>
          simp only [hph] at hauth
          by_cases hv : verify_password hashFn stored pw = true
          · rw [if_pos hv] at hauth
            cases hauth
            rw [hph]
            have hst : stored = hashFn pw := by simpa [verify_password] using hv
            rw [hst]
          · rw [if_neg hv] at hauth
            cases hauth

theorem created_accounts_have_password_hash_witness :
    ({ name := "Alice", balance := 50, password_hash := some "pw",
       transactions := [⟨"t0", "Initial Deposit", 50, none, none⟩] } : Account).password_hash
      = some (hashEx "pw") := by
  have h1 : Reachable reachEx :=
    Reachable.step Reachable.init
      (Step.create emptyBank hashEx "Alice" "pw" "t0" 50 (by norm_num))
  exact (created_accounts_have_password_hash reachEx h1).2 hashEx "1001" "pw"
    { name := "Alice", balance := 50, password_hash := some "pw",
      transactions := [⟨"t0", "Initial Deposit", 50, none, none⟩] } rfl
